import Mathlib

/-!
Verification of the LumaMap MIDI mapping core: a shallow embedding of the
event decoder (`parseMidiMessage`), the active-notes store mutated by
`handleMidiMessage`, the per-shape activation matcher (`isShapeActive`
plus the opacity formula used at render time), and the polygon authoring
interactions (`finishDrawing`, `handleNewShape`, vertex dragging with
clamping).  Machine bytes are modelled as natural numbers below 256,
JS `Map<string, ActiveNote>` as a function from keys to optional entries,
and fractional opacities as rationals.
-/

namespace LumaMap

/-- Decoded MIDI message, as produced by `parseMidiMessage`. -/
structure MidiMessage where
  command : Nat
  channel : Nat
  note : Nat
  velocity : Nat
deriving DecidableEq

/-- Embedding of `parseMidiMessage` (src/utils/midiUtils.ts): command is the
high nibble of byte 0, channel the low nibble plus one, note is byte 1,
velocity byte 2 when present and 0 otherwise. -/
def parseMidiMessage (data : List Nat) : MidiMessage :=
  { command := data.getD 0 0 >>> 4
    channel := (data.getD 0 0 &&& 15) + 1
    note := data.getD 1 0
    velocity := if 2 < data.length then data.getD 2 0 else 0 }

/-- Embedding of `getNoteKey` (src/utils/midiUtils.ts): the template string
`channel-note`. -/
def getNoteKey (channel note : Nat) : String :=
  toString channel ++ "-" ++ toString note

/-- Value stored in the active-notes map (src/types `ActiveNote`). -/
structure ActiveNote where
  velocity : Nat
  timestamp : Nat
deriving DecidableEq

/-- The JS `Map<string, ActiveNote>` modelled as a function from keys to
optional entries. -/
abbrev ActiveNotesMap := String → Option ActiveNote

/-- The initially empty active-notes map. -/
def emptyNotes : ActiveNotesMap := fun _ => none

/-- `Map.set`: upsert a value at a key. -/
def mapSet (m : ActiveNotesMap) (key : String) (v : ActiveNote) : ActiveNotesMap :=
  fun k => if k = key then some v else m k

/-- `Map.delete`: remove the entry at a key (no-op when absent). -/
def mapDelete (m : ActiveNotesMap) (key : String) : ActiveNotesMap :=
  fun k => if k = key then none else m k

/-- Embedding of `handleMidiMessage` (App component): note-on with positive
velocity upserts an entry, note-off or note-on with zero velocity deletes it,
every other command leaves the map as it was. -/
def handleMidiMessage (data : List Nat) (now : Nat) (m : ActiveNotesMap) :
    ActiveNotesMap :=
  let msg := parseMidiMessage data
  let key := getNoteKey msg.channel msg.note
  if msg.command = 9 ∧ 0 < msg.velocity then
    mapSet m key { velocity := msg.velocity, timestamp := now }
  else if msg.command = 8 ∨ (msg.command = 9 ∧ msg.velocity = 0) then
    mapDelete m key
  else
    m

/-- Replaying a list of raw messages (bytes,timestamp) through
`handleMidiMessage` in arrival order. -/
def applyEvents (evs : List (List Nat × Nat)) (m : ActiveNotesMap) :
    ActiveNotesMap :=
  evs.foldl (fun acc e => handleMidiMessage e.1 e.2 acc) m

/-- A 2D point in percentage coordinates (src/types `Point`). -/
structure Point where
  x : ℚ
  y : ℚ
deriving DecidableEq

/-- Embedding of the `Shape` record (src/types). -/
structure Shape where
  id : String
  name : String
  points : List Point
  channel : Nat
  noteStart : Nat
  noteEnd : Nat
  color : String
  velocitySensitive : Bool
  baseOpacity : ℚ
deriving DecidableEq

/-- Embedding of `isShapeActive` (ProjectionCanvas): scan every note of the
shape's range; under omni (channel 0) scan channels 1..16, otherwise only the
configured channel; a present entry marks the shape active and contributes to
the running maximum velocity. -/
def isShapeActive (activeNotes : ActiveNotesMap) (shape : Shape) : Bool × Nat :=
  (List.range' shape.noteStart (shape.noteEnd + 1 - shape.noteStart)).foldl
    (fun acc note =>
      if shape.channel = 0 then
        (List.range' 1 16).foldl
          (fun acc ch =>
            match activeNotes (getNoteKey ch note) with
            | some entry => (true, max acc.2 entry.velocity)
            | none => acc)
          acc
      else
        match activeNotes (getNoteKey shape.channel note) with
        | some entry => (true, max acc.2 entry.velocity)
        | none => acc)
    (false, 0)

/-- The two application modes (src/types `AppMode`). -/
inductive AppMode where
  | EDIT
  | PERFORMANCE
deriving DecidableEq

/-- Embedding of the fill-opacity computation in the ProjectionCanvas render
loop: velocity-scaled or fixed base opacity when active, otherwise 0 (with a
faint 0.2 authoring preview in EDIT mode). -/
def shapeOpacity (mode : AppMode) (activeNotes : ActiveNotesMap)
    (shape : Shape) : ℚ :=
  let res := isShapeActive activeNotes shape
  if res.1 then
    if shape.velocitySensitive then ((res.2 : ℚ) / 127) * shape.baseOpacity
    else shape.baseOpacity
  else
    match mode with
    | AppMode.EDIT => 0.2
    | AppMode.PERFORMANCE => 0

/-- Authoring-surface state of the ProjectionCanvas together with the shape
list and selection owned by the App component. -/
structure CanvasState where
  shapes : List Shape
  selectedShapeId : Option String
  isDrawing : Bool
  drawingPoints : List Point
deriving DecidableEq

/-- Embedding of `handleNewShape` (App component): append a shape built from
the committed points with the hardcoded defaults (omni channel 0, single-note
trigger 60..60, fixed opacity 1) and select it.  The fresh id produced by
`crypto.randomUUID()` is taken as a parameter. -/
def handleNewShape (freshId : String) (points : List Point)
    (s : CanvasState) : CanvasState :=
  let newShape : Shape :=
    { id := freshId
      name := "Shape " ++ toString (s.shapes.length + 1)
      points := points
      channel := 0
      noteStart := 60
      noteEnd := 60
      color := "#00ffcc"
      velocitySensitive := false
      baseOpacity := 1 }
  { s with shapes := s.shapes ++ [newShape], selectedShapeId := some newShape.id }

/-- Embedding of `finishDrawing` (ProjectionCanvas): emit the drawn points as
a new shape when there are at least three of them, then unconditionally clear
the draw session and leave drawing mode. -/
def finishDrawing (freshId : String) (s : CanvasState) : CanvasState :=
  let s1 := if 3 ≤ s.drawingPoints.length then handleNewShape freshId s.drawingPoints s else s
  { s1 with drawingPoints := [], isDrawing := false }

/-- Keyboard inputs relevant to `handleKeyDown`. -/
inductive Key where
  | Enter
  | Escape
  | Other
deriving DecidableEq

/-- Embedding of `handleKeyDown` (ProjectionCanvas): Enter commits the draw
session while drawing, Escape cancels drawing or clears the selection; inert
in performance mode. -/
def handleKeyDown (mode : AppMode) (key : Key) (freshId : String)
    (s : CanvasState) : CanvasState :=
  match mode with
  | AppMode.PERFORMANCE => s
  | AppMode.EDIT =>
    match key with
    | Key.Enter => if s.isDrawing then finishDrawing freshId s else s
    | Key.Escape =>
      if s.isDrawing then { s with drawingPoints := [], isDrawing := false }
      else { s with selectedShapeId := none }
    | Key.Other => s

/-- The bounding client rect of the SVG surface. -/
structure Rect where
  left : ℚ
  top : ℚ
  width : ℚ
  height : ℚ

/-- Embedding of `getCoords` (ProjectionCanvas): normalize client coordinates
to percentages of the surface. -/
def getCoords (rect : Rect) (clientX clientY : ℚ) : Point :=
  { x := (clientX - rect.left) / rect.width * 100
    y := (clientY - rect.top) / rect.height * 100 }

/-- Embedding of `handleWindowMouseMove` (ProjectionCanvas): normalize the
pointer position, clamp both axes to [0,100], and write the point back at the
dragged index of the shape's point list. -/
def handleWindowMouseMove (rect : Rect) (clientX clientY : ℚ)
    (draggedPointIndex : Nat) (shape : Shape) : Shape :=
  let p := getCoords rect clientX clientY
  let point : Point := { x := max 0 (min 100 p.x), y := max 0 (min 100 p.y) }
  { shape with points := shape.points.set draggedPointIndex point }

/-! ### Specification-side definitions

These restate the matcher contract of spec §4.3 in set terms, to be compared
with the scanning implementation `isShapeActive`. -/

/-- Spec §4.3: the candidate channel set of a shape — exactly the configured
channel, or all of 1..16 under omni. -/
def specChannels (shape : Shape) : Finset Nat :=
  if shape.channel = 0 then Finset.Icc 1 16 else {shape.channel}

/-- Spec §4.3: all candidate (channel, note) pairs of a shape. -/
def specPairs (shape : Shape) : Finset (Nat × Nat) :=
  specChannels shape ×ˢ Finset.Icc shape.noteStart shape.noteEnd

/-- Spec wording of a match: a note inside the inclusive trigger range paired
with the configured channel, or any channel 1..16 under omni. -/
def specMatches (shape : Shape) (c n : Nat) : Prop :=
  shape.noteStart ≤ n ∧ n ≤ shape.noteEnd ∧
    ((shape.channel ≠ 0 ∧ c = shape.channel) ∨
      (shape.channel = 0 ∧ 1 ≤ c ∧ c ≤ 16))

/-- Velocity recorded in the store under a key, 0 when absent. -/
def velAt (m : ActiveNotesMap) (key : String) : Nat :=
  match m key with
  | some e => e.velocity
  | none => 0

/-- Spec §4.3: the maximum velocity over all matching entries of the snapshot
(the loudest wins, not the first match). -/
def specMaxVelocity (m : ActiveNotesMap) (shape : Shape) : Nat :=
  (specPairs shape).sup fun p => velAt m (getNoteKey p.1 p.2)

/-- One event of the spec-side replay: remember a message when it addresses
the (channel, note) pair of interest. -/
def lastNoteStep (c n : Nat) (acc : Option MidiMessage) (e : List Nat × Nat) :
    Option MidiMessage :=
  let msg := parseMidiMessage e.1
  if msg.channel = c ∧ msg.note = n then some msg else acc

/-- Spec §8: the last note message addressed to a given (channel, note) pair
in a replayed event list. -/
def lastNoteMessage (c n : Nat) (evs : List (List Nat × Nat)) :
    Option MidiMessage :=
  evs.foldl (lastNoteStep c n) none

/-! ### Decoding the composite key

A decimal decoder for `getNoteKey`'s `channel-note` strings, used to prove the
encoding injective on the byte-sized ranges. -/

/-- Numeric value of a decimal digit character. -/
def digitVal (c : Char) : Option Nat :=
  if '0' ≤ c ∧ c ≤ '9' then some (c.toNat - Char.toNat '0') else none

/-- Fold decimal digits into a number, failing on a non-digit. -/
def parseNatAux : List Char → Nat → Option Nat
  | [], acc => some acc
  | c :: cs, acc =>
    match digitVal c with
    | some d => parseNatAux cs (acc * 10 + d)
    | none => none

/-- Split a character list at its first dash. -/
def splitDash : List Char → Option (List Char × List Char)
  | [] => none
  | c :: cs =>
    if c = '-' then some ([], cs)
    else (splitDash cs).map (fun p => (c :: p.1, p.2))

/-- Decode a `channel-note` key back into its two numbers. -/
def decodeKey (s : String) : Option (Nat × Nat) :=
  match splitDash s.data with
  | some (a, b) =>
    match parseNatAux a 0, parseNatAux b 0 with
    | some c, some n => some (c, n)
    | _, _ => none
  | none => none

set_option maxRecDepth 10000 in
/-- `decodeKey` is a left inverse of `getNoteKey` on channels up to 16 and
byte-sized notes. -/
theorem decodeKey_getNoteKey :
    ∀ c < 17, ∀ n < 256, decodeKey (getNoteKey c n) = some (c, n) := by
  decide

/-- The composite key is injective on channels 1..16 and byte-sized notes:
distinct sounding notes never alias in the store. -/
theorem getNoteKey_inj {c1 n1 c2 n2 : Nat}
    (hc1 : c1 ≤ 16) (hn1 : n1 < 256) (hc2 : c2 ≤ 16) (hn2 : n2 < 256)
    (h : getNoteKey c1 n1 = getNoteKey c2 n2) : c1 = c2 ∧ n1 = n2 := by
  have r1 := decodeKey_getNoteKey c1 (by omega) n1 hn1
  have r2 := decodeKey_getNoteKey c2 (by omega) n2 hn2
  rw [h, r2] at r1
  have h2 := (Option.some.injEq _ _).mp r1
  exact ⟨congrArg Prod.fst h2.symm, congrArg Prod.snd h2.symm⟩

/-! ### Characterizing the matcher's scan -/

/-- One step of the matcher's scan: a present entry sets the active flag and
raises the running maximum velocity. -/
def scanStep (m : ActiveNotesMap) (acc : Bool × Nat) (key : String) :
    Bool × Nat :=
  match m key with
  | some entry => (true, max acc.2 entry.velocity)
  | none => acc

/-- The matcher's scan over a list of candidate keys. -/
def scanKeys (m : ActiveNotesMap) (keys : List String) (acc : Bool × Nat) :
    Bool × Nat :=
  keys.foldl (scanStep m) acc

/-- Maximum stored velocity over a list of keys. -/
def maxVelOf (m : ActiveNotesMap) : List String → Nat
  | [] => 0
  | k :: ks => max (velAt m k) (maxVelOf m ks)

/-- Candidate keys the matcher scans for one note value. -/
def channelKeys (shape : Shape) (note : Nat) : List String :=
  if shape.channel = 0 then
    (List.range' 1 16).map fun ch => getNoteKey ch note
  else
    [getNoteKey shape.channel note]

/-- All candidate keys the matcher scans for a shape. -/
def allKeys (shape : Shape) : List String :=
  (List.range' shape.noteStart (shape.noteEnd + 1 - shape.noteStart)).flatMap
    (channelKeys shape)

theorem scanKeys_append (m : ActiveNotesMap) (a b : List String)
    (acc : Bool × Nat) :
    scanKeys m (a ++ b) acc = scanKeys m b (scanKeys m a acc) :=
  List.foldl_append _ _ _ _

theorem foldl_scanKeys_flatMap (m : ActiveNotesMap) (f : Nat → List String) :
    ∀ (notes : List Nat) (acc : Bool × Nat),
      notes.foldl (fun acc note => scanKeys m (f note) acc) acc =
        scanKeys m (notes.flatMap f) acc := by
  intro notes
  induction notes with
  | nil => intro acc; rfl
  | cons n ns ih =>
    intro acc
    rw [List.foldl_cons, ih, List.flatMap_cons, scanKeys_append]

/-- The nested note/channel loops of `isShapeActive` are one scan over the
flattened candidate key list. -/
theorem isShapeActive_eq_scanKeys (m : ActiveNotesMap) (shape : Shape) :
    isShapeActive m shape = scanKeys m (allKeys shape) (false, 0) := by
  unfold isShapeActive allKeys
  rw [← foldl_scanKeys_flatMap]
  congr 1
  funext acc note
  unfold channelKeys
  by_cases h : shape.channel = 0
  · rw [if_pos h, if_pos h, scanKeys, List.foldl_map]
    rfl
  · rw [if_neg h, if_neg h]
    rfl

theorem scanKeys_fst (m : ActiveNotesMap) :
    ∀ (keys : List String) (acc : Bool × Nat),
      (scanKeys m keys acc).1 =
        (acc.1 || keys.any fun k => (m k).isSome) := by
  intro keys
  induction keys with
  | nil => intro acc; simp [scanKeys]
  | cons k ks ih =>
    intro acc
    rw [scanKeys, List.foldl_cons, ← scanKeys]
    cases hk : m k with
    | some e =>
      simp [scanStep, hk, ih]
    | none =>
      simp [scanStep, hk, ih]

theorem scanKeys_snd (m : ActiveNotesMap) :
    ∀ (keys : List String) (acc : Bool × Nat),
      (scanKeys m keys acc).2 = max acc.2 (maxVelOf m keys) := by
  intro keys
  induction keys with
  | nil => intro acc; simp [scanKeys, maxVelOf]
  | cons k ks ih =>
    intro acc
    rw [scanKeys, List.foldl_cons, ← scanKeys]
    cases hk : m k with
    | some e =>
      simp only [scanStep, hk, ih, maxVelOf, velAt]
      rw [Nat.max_assoc]
    | none =>
      simp [scanStep, hk, ih, maxVelOf, velAt]

theorem mem_channelKeys (shape : Shape) (note : Nat) (k : String) :
    k ∈ channelKeys shape note ↔
      ∃ c, ((shape.channel ≠ 0 ∧ c = shape.channel) ∨
              (shape.channel = 0 ∧ 1 ≤ c ∧ c ≤ 16)) ∧
        k = getNoteKey c note := by
  unfold channelKeys
  by_cases h : shape.channel = 0
  · rw [if_pos h]
    simp only [List.mem_map, List.mem_range'_1]
    constructor
    · rintro ⟨c, hc, rfl⟩
      exact ⟨c, Or.inr ⟨h, by omega, by omega⟩, rfl⟩
    · rintro ⟨c, hc, rfl⟩
      rcases hc with ⟨hne, _⟩ | ⟨_, h1, h16⟩
      · exact absurd h hne
      · exact ⟨c, by omega, rfl⟩
  · rw [if_neg h]
    simp only [List.mem_singleton]
    constructor
    · rintro rfl
      exact ⟨shape.channel, Or.inl ⟨h, rfl⟩, rfl⟩
    · rintro ⟨c, hc, rfl⟩
      rcases hc with ⟨_, rfl⟩ | ⟨h0, _⟩
      · rfl
      · exact absurd h0 h

theorem mem_allKeys (shape : Shape) (k : String) :
    k ∈ allKeys shape ↔
      ∃ c n, specMatches shape c n ∧ k = getNoteKey c n := by
  unfold allKeys specMatches
  rw [List.mem_flatMap]
  constructor
  · rintro ⟨note, hnote, hk⟩
    rw [List.mem_range'_1] at hnote
    rcases (mem_channelKeys shape note k).mp hk with ⟨c, hc, rfl⟩
    exact ⟨c, note, ⟨by omega, by omega, hc⟩, rfl⟩
  · rintro ⟨c, n, ⟨hlo, hhi, hc⟩, rfl⟩
    refine ⟨n, List.mem_range'_1.mpr ⟨hlo, by omega⟩, ?_⟩
    exact (mem_channelKeys shape n _).mpr ⟨c, hc, rfl⟩

theorem mem_specPairs (shape : Shape) (c n : Nat) :
    (c, n) ∈ specPairs shape ↔ specMatches shape c n := by
  unfold specPairs specChannels specMatches
  rw [Finset.mem_product, Finset.mem_Icc]
  by_cases h : shape.channel = 0
  · rw [if_pos h]
    simp only [Finset.mem_Icc]
    constructor
    · rintro ⟨⟨h1, h16⟩, hlo, hhi⟩
      exact ⟨hlo, hhi, Or.inr ⟨h, h1, h16⟩⟩
    · rintro ⟨hlo, hhi, ⟨hne, _⟩ | ⟨_, h1, h16⟩⟩
      · exact absurd h hne
      · exact ⟨⟨h1, h16⟩, hlo, hhi⟩
  · rw [if_neg h]
    simp only [Finset.mem_singleton]
    constructor
    · rintro ⟨rfl, hlo, hhi⟩
      exact ⟨hlo, hhi, Or.inl ⟨h, rfl⟩⟩
    · rintro ⟨hlo, hhi, ⟨_, rfl⟩ | ⟨h0, _⟩⟩
      · exact ⟨rfl, hlo, hhi⟩
      · exact absurd h0 h

theorem velAt_le_maxVelOf (m : ActiveNotesMap) :
    ∀ (keys : List String), ∀ k ∈ keys, velAt m k ≤ maxVelOf m keys := by
  intro keys
  induction keys with
  | nil => intro k hk; cases hk
  | cons a ks ih =>
    intro k hk
    rcases List.mem_cons.mp hk with rfl | hk
    · exact Nat.le_max_left _ _
    · exact le_trans (ih k hk) (Nat.le_max_right _ _)

theorem maxVelOf_cases (m : ActiveNotesMap) :
    ∀ (keys : List String),
      maxVelOf m keys = 0 ∨ ∃ k ∈ keys, maxVelOf m keys = velAt m k := by
  intro keys
  induction keys with
  | nil => exact Or.inl rfl
  | cons a ks ih =>
    rcases max_choice (velAt m a) (maxVelOf m ks) with h | h
    · exact Or.inr ⟨a, List.mem_cons_self _ _, h⟩
    · rcases ih with h0 | ⟨k, hk, hke⟩
      · rw [maxVelOf, h, h0]
        exact Or.inl rfl
      · exact Or.inr ⟨k, List.mem_cons_of_mem _ hk, by rw [maxVelOf, h, hke]⟩

/-- The running maximum of the scan equals the spec-side supremum over all
matching pairs. -/
theorem maxVelOf_allKeys (m : ActiveNotesMap) (shape : Shape) :
    maxVelOf m (allKeys shape) = specMaxVelocity m shape := by
  apply Nat.le_antisymm
  · rcases maxVelOf_cases m (allKeys shape) with h | ⟨k, hk, hke⟩
    · rw [h]; exact Nat.zero_le _
    · rcases (mem_allKeys shape k).mp hk with ⟨c, n, hm, rfl⟩
      rw [hke]
      exact Finset.le_sup (f := fun p => velAt m (getNoteKey p.1 p.2))
        ((mem_specPairs shape c n).mpr hm)
  · apply Finset.sup_le
    rintro ⟨c, n⟩ hp
    exact velAt_le_maxVelOf m (allKeys shape) _
      ((mem_allKeys shape _).mpr ⟨c, n, (mem_specPairs shape c n).mp hp, rfl⟩)

theorem isShapeActive_fst (m : ActiveNotesMap) (shape : Shape) :
    (isShapeActive m shape).1 =
      ((allKeys shape).any fun k => (m k).isSome) := by
  rw [isShapeActive_eq_scanKeys, scanKeys_fst]
  simp

theorem isShapeActive_snd (m : ActiveNotesMap) (shape : Shape) :
    (isShapeActive m shape).2 = specMaxVelocity m shape := by
  rw [isShapeActive_eq_scanKeys, scanKeys_snd, maxVelOf_allKeys]
  simp

theorem anyKey_iff_pairs (m : ActiveNotesMap) (shape : Shape) :
    ((allKeys shape).any fun k => (m k).isSome) = true ↔
      ∃ p ∈ specPairs shape, (m (getNoteKey p.1 p.2)).isSome = true := by
  rw [List.any_eq_true]
  constructor
  · rintro ⟨k, hk, hp⟩
    rcases (mem_allKeys shape k).mp hk with ⟨c, n, hm, rfl⟩
    exact ⟨(c, n), (mem_specPairs shape c n).mpr hm, hp⟩
  · rintro ⟨⟨c, n⟩, hp, hs⟩
    exact ⟨getNoteKey c n,
      (mem_allKeys shape _).mpr ⟨c, n, (mem_specPairs shape c n).mp hp, rfl⟩, hs⟩

/-! ### Replaying event sequences through the store -/

theorem parse_channel_bounds (data : List Nat) :
    1 ≤ (parseMidiMessage data).channel ∧ (parseMidiMessage data).channel ≤ 16 := by
  have h := Nat.and_le_right (n := data.getD 0 0) (m := 15)
  constructor
  · show 1 ≤ (data.getD 0 0 &&& 15) + 1
    omega
  · show (data.getD 0 0 &&& 15) + 1 ≤ 16
    omega

/-- Invariant of the replay: the presence of the entry at a (channel, note)
key tracks whether the last message addressed to that pair was a note-on with
positive velocity. -/
theorem applyEvents_key_invariant (c n : Nat) (hc16 : c ≤ 16) (hn : n < 256) :
    ∀ (evs : List (List Nat × Nat)) (m : ActiveNotesMap)
      (acc : Option MidiMessage),
      (∀ e ∈ evs,
        ((parseMidiMessage e.1).command = 8 ∨
          (parseMidiMessage e.1).command = 9) ∧
        (parseMidiMessage e.1).note < 256) →
      ((m (getNoteKey c n)).isSome = true ↔
        ∃ msg, acc = some msg ∧ msg.command = 9 ∧ 0 < msg.velocity) →
      ((applyEvents evs m (getNoteKey c n)).isSome = true ↔
        ∃ msg, evs.foldl (lastNoteStep c n) acc = some msg ∧
          msg.command = 9 ∧ 0 < msg.velocity) := by
  intro evs
  induction evs with
  | nil =>
    intro m acc _ hinv
    simpa [applyEvents] using hinv
  | cons e evs ih =>
    intro m acc hvalid hinv
    have he := hvalid e (List.mem_cons_self _ _)
    rw [applyEvents, List.foldl_cons, ← applyEvents, List.foldl_cons]
    apply ih
    · intro e' he'
      exact hvalid e' (List.mem_cons_of_mem _ he')
    · by_cases hmatch :
        (parseMidiMessage e.1).channel = c ∧ (parseMidiMessage e.1).note = n
      · have hkey :
            getNoteKey (parseMidiMessage e.1).channel
              (parseMidiMessage e.1).note = getNoteKey c n := by
          rw [hmatch.1, hmatch.2]
        rcases he.1 with h8 | h9
        · have hmap : handleMidiMessage e.1 e.2 m (getNoteKey c n) = none := by
            unfold handleMidiMessage
            rw [if_neg (by simp [h8]), if_pos (Or.inl h8)]
            unfold mapDelete
            simp [hkey]
          rw [hmap]
          simp [lastNoteStep, hmatch.1, hmatch.2, h8]
        · by_cases hvel : 0 < (parseMidiMessage e.1).velocity
          · have hmap : handleMidiMessage e.1 e.2 m (getNoteKey c n) =
                some { velocity := (parseMidiMessage e.1).velocity
                       timestamp := e.2 } := by
              unfold handleMidiMessage
              rw [if_pos ⟨h9, hvel⟩]
              unfold mapSet
              simp [hkey]
            rw [hmap]
            simp [lastNoteStep, hmatch.1, hmatch.2, h9, hvel]
          · have hvel0 : (parseMidiMessage e.1).velocity = 0 := by omega
            have hmap :
                handleMidiMessage e.1 e.2 m (getNoteKey c n) = none := by
              unfold handleMidiMessage
              rw [if_neg (by simp [hvel0]), if_pos (Or.inr ⟨h9, hvel0⟩)]
              unfold mapDelete
              simp [hkey]
            rw [hmap]
            simp [lastNoteStep, hmatch.1, hmatch.2, hvel0]
      · have hch := parse_channel_bounds e.1
        have hkeyne : getNoteKey c n ≠
            getNoteKey (parseMidiMessage e.1).channel
              (parseMidiMessage e.1).note := by
          intro hk
          have hinj := getNoteKey_inj hc16 hn hch.2 he.2 hk
          exact hmatch ⟨hinj.1.symm, hinj.2.symm⟩
        have hmap : handleMidiMessage e.1 e.2 m (getNoteKey c n) =
            m (getNoteKey c n) := by
          unfold handleMidiMessage mapSet mapDelete
          split_ifs <;> simp [hkeyne]
        rw [hmap]
        simp only [lastNoteStep]
        rw [if_neg hmatch]
        exact hinv

/-! ### Claim theorems -/

/-- C1: for every region and activation-store snapshot, the matcher reports
the region active iff some note n in [noteRangeLow, noteRangeHigh] together
with a channel c (the filter when nonzero, otherwise any of 1..16) has the
pair present in the snapshot; in particular an inverted range is inactive on
every snapshot. -/
theorem isShapeActive_iff_exists_match (m : ActiveNotesMap) (shape : Shape) :
    ((isShapeActive m shape).1 = true ↔
      ∃ c n, specMatches shape c n ∧ (m (getNoteKey c n)).isSome = true) ∧
    (shape.noteEnd < shape.noteStart → (isShapeActive m shape).1 = false) := by
  constructor
  · rw [isShapeActive_fst, List.any_eq_true]
    constructor
    · rintro ⟨k, hk, hp⟩
      rcases (mem_allKeys shape k).mp hk with ⟨c, n, hm, rfl⟩
      exact ⟨c, n, hm, hp⟩
    · rintro ⟨c, n, hm, hp⟩
      exact ⟨getNoteKey c n, (mem_allKeys shape _).mpr ⟨c, n, hm, rfl⟩, hp⟩
  · intro hlt
    have hkeys : allKeys shape = [] := by
      unfold allKeys
      have hz : shape.noteEnd + 1 - shape.noteStart = 0 := by omega
      rw [hz]
      rfl
    rw [isShapeActive_fst, hkeys]
    rfl

/-- Witness for C1: a region with an inverted note range (64..60) is inactive
on the empty snapshot. -/
theorem isShapeActive_iff_exists_match_witness :
    (isShapeActive emptyNotes
        { id := "w1", name := "W1", points := [], channel := 1, noteStart := 64,
          noteEnd := 60, color := "#00ffcc", velocitySensitive := false,
          baseOpacity := 1 }).1 = false :=
  (isShapeActive_iff_exists_match emptyNotes _).2 (by decide)

/-- C2: the reported intensity (the fill opacity driven by the matcher in
performance rendering) is 0 when the region is inactive; when active it is
`baseOpacity` in fixed mode and `(maxVelocity / 127) * baseOpacity` in
velocity-scaled mode, where the maximum is taken over all matching
(channel, note) entries of the snapshot — a full scan, not the first match. -/
theorem shapeOpacity_matcher_spec (m : ActiveNotesMap) (shape : Shape) :
    shapeOpacity AppMode.PERFORMANCE m shape =
      if ∃ p ∈ specPairs shape, (m (getNoteKey p.1 p.2)).isSome = true then
        if shape.velocitySensitive then
          ((specMaxVelocity m shape : ℚ) / 127) * shape.baseOpacity
        else shape.baseOpacity
      else 0 := by
  by_cases h : ∃ p ∈ specPairs shape, (m (getNoteKey p.1 p.2)).isSome = true
  · rw [if_pos h]
    have ha : (isShapeActive m shape).1 = true := by
      rw [isShapeActive_fst]
      exact (anyKey_iff_pairs m shape).mpr h
    have hv := isShapeActive_snd m shape
    simp only [shapeOpacity, ha, hv, if_true]
  · rw [if_neg h]
    have ha : (isShapeActive m shape).1 = false := by
      rw [isShapeActive_fst]
      cases hb : (allKeys shape).any fun k => (m k).isSome
      · rfl
      · exact absurd ((anyKey_iff_pairs m shape).mp hb) h
    simp only [shapeOpacity, ha, Bool.false_eq_true, if_false]

/-- C3: replaying any finite sequence of note-on/note-off messages through
the initially empty store leaves exactly those (channel, note) entries whose
last addressed message was a note-on with positive velocity. -/
theorem applyEvents_entry_iff (evs : List (List Nat × Nat)) (c n : Nat)
    (_hc1 : 1 ≤ c) (hc16 : c ≤ 16) (hn : n < 256)
    (hevs : ∀ e ∈ evs,
      ((parseMidiMessage e.1).command = 8 ∨
        (parseMidiMessage e.1).command = 9) ∧
      (parseMidiMessage e.1).note < 256) :
    ((applyEvents evs emptyNotes) (getNoteKey c n)).isSome = true ↔
      ∃ msg, lastNoteMessage c n evs = some msg ∧
        msg.command = 9 ∧ 0 < msg.velocity := by
  have h := applyEvents_key_invariant c n hc16 hn evs emptyNotes none hevs
    (by simp [emptyNotes])
  simpa [lastNoteMessage] using h

/-- Witness for C3: a single note-on (0x90, note 60, velocity 100) leaves the
entry for channel 1, note 60 present. -/
theorem applyEvents_entry_iff_witness :
    ((applyEvents [([144, 60, 100], 5)] emptyNotes)
        (getNoteKey 1 60)).isSome = true ↔
      ∃ msg, lastNoteMessage 1 60 [([144, 60, 100], 5)] = some msg ∧
        msg.command = 9 ∧ 0 < msg.velocity :=
  applyEvents_entry_iff [([144, 60, 100], 5)] 1 60 (by decide) (by decide)
    (by decide) (by decide)

set_option maxRecDepth 4000 in
/-- C5: on any message of at least two bytes the decoder returns the high
nibble of byte 0 as command (below 16), the low nibble of byte 0 plus one as
channel (within 1..16), byte 1 as note, and byte 2 as velocity when present,
0 otherwise; it is a total function. -/
theorem parseMidiMessage_spec (data : List Nat) (h2 : 2 ≤ data.length)
    (hb : ∀ b ∈ data, b < 256) :
    (parseMidiMessage data).command = data[0] / 16 ∧
    (parseMidiMessage data).command < 16 ∧
    (parseMidiMessage data).channel = data[0] % 16 + 1 ∧
    1 ≤ (parseMidiMessage data).channel ∧
    (parseMidiMessage data).channel ≤ 16 ∧
    (parseMidiMessage data).note = data[1] ∧
    (∀ h3 : 2 < data.length, (parseMidiMessage data).velocity = data[2]) ∧
    (data.length = 2 → (parseMidiMessage data).velocity = 0) := by
  have h0 : data.getD 0 0 = data[0] := List.getD_eq_getElem data 0 (by omega)
  have h1 : data.getD 1 0 = data[1] := List.getD_eq_getElem data 0 (by omega)
  have hb0 : data[0] < 256 := hb _ (List.getElem_mem _)
  have hand : ∀ b < 256, b &&& 15 = b % 16 := by decide
  have hch := parse_channel_bounds data
  refine ⟨?_, ?_, ?_, hch.1, hch.2, ?_, ?_, ?_⟩
  · show data.getD 0 0 >>> 4 = data[0] / 16
    rw [h0, Nat.shiftRight_eq_div_pow]
  · show data.getD 0 0 >>> 4 < 16
    rw [h0, Nat.shiftRight_eq_div_pow]
    have : data[0] / 2 ^ 4 < 16 := by
      rw [(Nat.div_lt_iff_lt_mul (by norm_num))]
      omega
    exact this
  · show (data.getD 0 0 &&& 15) + 1 = data[0] % 16 + 1
    rw [h0, hand _ hb0]
  · show data.getD 1 0 = data[1]
    exact h1
  · intro h3
    show (if 2 < data.length then data.getD 2 0 else 0) = data[2]
    rw [if_pos h3]
    exact List.getD_eq_getElem data 0 h3
  · intro hlen
    show (if 2 < data.length then data.getD 2 0 else 0) = 0
    rw [if_neg (by omega)]

/-- Witness for C5: decoding the note-on message (0x90, 60, 100). -/
theorem parseMidiMessage_spec_witness :
    (parseMidiMessage [144, 60, 100]).command = 9 ∧
    (parseMidiMessage [144, 60, 100]).channel = 1 ∧
    (parseMidiMessage [144, 60, 100]).note = 60 ∧
    (parseMidiMessage [144, 60, 100]).velocity = 100 := by
  have h := parseMidiMessage_spec [144, 60, 100] (by decide) (by decide)
  exact ⟨h.1, h.2.2.1, h.2.2.2.2.2.1, h.2.2.2.2.2.2.1 (by decide)⟩

theorem nibble_decode :
    ∀ d < 16, (144 + d) >>> 4 = 9 ∧ ((144 + d) &&& 15) = d ∧
      (128 + d) >>> 4 = 8 ∧ ((128 + d) &&& 15) = d := by
  decide

theorem parse_noteOn_zero (c n : Nat) (hc1 : 1 ≤ c) (hc16 : c ≤ 16) :
    parseMidiMessage [144 + (c - 1), n, 0] =
      { command := 9, channel := c, note := n, velocity := 0 } := by
  have hnib := nibble_decode (c - 1) (by omega)
  unfold parseMidiMessage
  rw [MidiMessage.mk.injEq]
  refine ⟨?_, ?_, ?_, ?_⟩
  · simpa using hnib.1
  · have := hnib.2.1
    simp only [List.getD_cons_zero]
    omega
  · rfl
  · rfl

theorem parse_noteOff (c n : Nat) (hc1 : 1 ≤ c) (hc16 : c ≤ 16) :
    parseMidiMessage [128 + (c - 1), n] =
      { command := 8, channel := c, note := n, velocity := 0 } := by
  have hnib := nibble_decode (c - 1) (by omega)
  unfold parseMidiMessage
  rw [MidiMessage.mk.injEq]
  refine ⟨?_, ?_, ?_, ?_⟩
  · simpa using hnib.2.2.1
  · have := hnib.2.2.2
    simp only [List.getD_cons_zero]
    omega
  · rfl
  · rfl

/-- C6: a note-on with velocity 0 (status 0x90 + channel) changes the store
exactly as a note-off (status 0x80 + channel) for the same pair does, and in
particular leaves no entry for that (channel, note). -/
theorem noteOn_zero_velocity_eq_noteOff (c n t : Nat) (m : ActiveNotesMap)
    (hc1 : 1 ≤ c) (hc16 : c ≤ 16) :
    handleMidiMessage [144 + (c - 1), n, 0] t m =
      handleMidiMessage [128 + (c - 1), n] t m ∧
    handleMidiMessage [144 + (c - 1), n, 0] t m (getNoteKey c n) = none := by
  have pon := parse_noteOn_zero c n hc1 hc16
  have poff := parse_noteOff c n hc1 hc16
  have hon : handleMidiMessage [144 + (c - 1), n, 0] t m =
      mapDelete m (getNoteKey c n) := by
    simp only [handleMidiMessage, pon]
    simp
  have hoff : handleMidiMessage [128 + (c - 1), n] t m =
      mapDelete m (getNoteKey c n) := by
    simp only [handleMidiMessage, poff]
    simp
  refine ⟨hon.trans hoff.symm, ?_⟩
  rw [hon]
  simp [mapDelete]

/-- Witness for C6: on a store holding (channel 1, note 60), the zero-velocity
note-on removes the entry exactly as a note-off would. -/
theorem noteOn_zero_velocity_eq_noteOff_witness :
    handleMidiMessage [144, 60, 0] 7
        (mapSet emptyNotes (getNoteKey 1 60) ⟨100, 3⟩) =
      handleMidiMessage [128, 60] 7
        (mapSet emptyNotes (getNoteKey 1 60) ⟨100, 3⟩) ∧
    handleMidiMessage [144, 60, 0] 7
        (mapSet emptyNotes (getNoteKey 1 60) ⟨100, 3⟩) (getNoteKey 1 60) =
      none :=
  noteOn_zero_velocity_eq_noteOff 1 60 7
    (mapSet emptyNotes (getNoteKey 1 60) ⟨100, 3⟩) (by decide) (by decide)

/-- C8: a note-off addressed to a pair with no entry in the store leaves the
store unchanged — removal of an absent key is a silent no-op. -/
theorem noteOff_absent_noop (c n t : Nat) (m : ActiveNotesMap)
    (hc1 : 1 ≤ c) (hc16 : c ≤ 16)
    (habs : m (getNoteKey c n) = none) :
    handleMidiMessage [128 + (c - 1), n] t m = m := by
  have poff := parse_noteOff c n hc1 hc16
  have hoff : handleMidiMessage [128 + (c - 1), n] t m =
      mapDelete m (getNoteKey c n) := by
    simp only [handleMidiMessage, poff]
    simp
  rw [hoff]
  funext k
  unfold mapDelete
  by_cases hk : k = getNoteKey c n
  · rw [if_pos hk, hk, habs]
  · rw [if_neg hk]

/-- Witness for C8: a note-off for (channel 1, note 60) on the empty store
returns the empty store. -/
theorem noteOff_absent_noop_witness :
    handleMidiMessage [128, 60] 7 emptyNotes = emptyNotes :=
  noteOff_absent_noop 1 60 7 emptyNotes (by decide) (by decide) rfl

/-- C9: the composite key `channel-note` is injective on channels 1..16 and
notes 0..127, so distinct sounding pairs never alias in the store. -/
theorem getNoteKey_injective_on_ranges (c1 n1 c2 n2 : Nat)
    (_hc1 : 1 ≤ c1) (hc1u : c1 ≤ 16) (hn1 : n1 ≤ 127)
    (_hc2 : 1 ≤ c2) (hc2u : c2 ≤ 16) (hn2 : n2 ≤ 127)
    (h : getNoteKey c1 n1 = getNoteKey c2 n2) :
    c1 = c2 ∧ n1 = n2 :=
  getNoteKey_inj hc1u (by omega) hc2u (by omega) h

/-- Witness for C9: the key of (1, 60) decodes back to (1, 60). -/
theorem getNoteKey_injective_on_ranges_witness : (1 : Nat) = 1 ∧ (60 : Nat) = 60 :=
  getNoteKey_injective_on_ranges 1 60 1 60 (by decide) (by decide) (by decide)
    (by decide) (by decide) (by decide) rfl

/-- C10: an event whose command nibble is neither 8 (note-off) nor 9
(note-on) — control change, aftertouch, pitch bend, … — leaves the
active-notes map unchanged. -/
theorem handleMidiMessage_other_commands (data : List Nat) (t : Nat)
    (m : ActiveNotesMap)
    (h8 : (parseMidiMessage data).command ≠ 8)
    (h9 : (parseMidiMessage data).command ≠ 9) :
    handleMidiMessage data t m = m := by
  simp only [handleMidiMessage]
  rw [if_neg (by rintro ⟨h, _⟩; exact h9 h),
    if_neg (by rintro (h | ⟨h, _⟩); exacts [h8 h, h9 h])]

/-- Witness for C10: a control-change message (0xB0, controller 7, value 100)
leaves the empty store untouched. -/
theorem handleMidiMessage_other_commands_witness :
    handleMidiMessage [176, 7, 100] 4 emptyNotes = emptyNotes :=
  handleMidiMessage_other_commands [176, 7, 100] 4 emptyNotes (by decide)
    (by decide)

/-- Counterexample to C4 as stated: committing (Enter) while drawing with
only two captured points is not a no-op that stays in DRAWING — the code
leaves drawing mode and discards the two points (creating no shape). -/
theorem finishDrawing_two_points_exits_drawing :
    (handleKeyDown AppMode.EDIT Key.Enter "new-shape"
        { shapes := [], selectedShapeId := none, isDrawing := true,
          drawingPoints := [{ x := 1, y := 2 }, { x := 3, y := 4 }] }).isDrawing
        = false ∧
    (handleKeyDown AppMode.EDIT Key.Enter "new-shape"
        { shapes := [], selectedShapeId := none, isDrawing := true,
          drawingPoints := [{ x := 1, y := 2 }, { x := 3, y := 4 }] }).drawingPoints
        = [] ∧
    (handleKeyDown AppMode.EDIT Key.Enter "new-shape"
        { shapes := [], selectedShapeId := none, isDrawing := true,
          drawingPoints := [{ x := 1, y := 2 }, { x := 3, y := 4 }] }).shapes
        = [] :=
  ⟨rfl, rfl, rfl⟩

/-- C4 (amended): while drawing, the commit signal always transitions to
IDLE, clearing the draw session; a new region — holding the session's points
in their original order, omni channel filter 0 and a single-note trigger
range — is appended exactly when the session held at least three points,
and otherwise the shape list is unchanged. -/
theorem handleKeyDown_commit_spec (freshId : String) (s : CanvasState)
    (hd : s.isDrawing = true) :
    (handleKeyDown AppMode.EDIT Key.Enter freshId s).isDrawing = false ∧
    (handleKeyDown AppMode.EDIT Key.Enter freshId s).drawingPoints = [] ∧
    if 3 ≤ s.drawingPoints.length then
      ∃ sh : Shape,
        (handleKeyDown AppMode.EDIT Key.Enter freshId s).shapes =
          s.shapes ++ [sh] ∧
        sh.points = s.drawingPoints ∧ sh.channel = 0 ∧
        sh.noteStart = sh.noteEnd
    else (handleKeyDown AppMode.EDIT Key.Enter freshId s).shapes =
      s.shapes := by
  have hk : handleKeyDown AppMode.EDIT Key.Enter freshId s =
      finishDrawing freshId s := by
    simp [handleKeyDown, hd]
  rw [hk]
  by_cases h3 : 3 ≤ s.drawingPoints.length
  · rw [if_pos h3]
    refine ⟨rfl, rfl,
      ⟨{ id := freshId, name := "Shape " ++ toString (s.shapes.length + 1),
         points := s.drawingPoints, channel := 0, noteStart := 60,
         noteEnd := 60, color := "#00ffcc", velocitySensitive := false,
         baseOpacity := 1 }, ?_, rfl, rfl, rfl⟩⟩
    simp [finishDrawing, handleNewShape, if_pos h3]
  · rw [if_neg h3]
    refine ⟨rfl, rfl, ?_⟩
    simp [finishDrawing, if_neg h3]

/-- Witness for C4 (amended): committing a three-point session appends one
omni single-note shape and returns to IDLE. -/
theorem handleKeyDown_commit_spec_witness :
    (handleKeyDown AppMode.EDIT Key.Enter "w4"
        { shapes := [], selectedShapeId := none, isDrawing := true,
          drawingPoints :=
            [{ x := 0, y := 0 }, { x := 50, y := 0 },
              { x := 50, y := 50 }] }).isDrawing = false :=
  (handleKeyDown_commit_spec "w4"
    { shapes := [], selectedShapeId := none, isDrawing := true,
      drawingPoints :=
        [{ x := 0, y := 0 }, { x := 50, y := 0 },
          { x := 50, y := 50 }] } rfl).1

/-- C7: every drag update stores at the dragged index a point whose
coordinates lie within [0,100] on both axes, for every raw pointer position,
and when the normalized pointer position is already within [0,100] on both
axes the stored point equals it unchanged. -/
theorem handleWindowMouseMove_clamp (rect : Rect) (clientX clientY : ℚ)
    (idx : Nat) (shape : Shape) (h : idx < shape.points.length) :
    ∃ q : Point,
      (handleWindowMouseMove rect clientX clientY idx shape).points.getD idx
          { x := 0, y := 0 } = q ∧
      0 ≤ q.x ∧ q.x ≤ 100 ∧ 0 ≤ q.y ∧ q.y ≤ 100 ∧
      ((0 ≤ (getCoords rect clientX clientY).x ∧
          (getCoords rect clientX clientY).x ≤ 100 ∧
          0 ≤ (getCoords rect clientX clientY).y ∧
          (getCoords rect clientX clientY).y ≤ 100) →
        q = getCoords rect clientX clientY) := by
  refine ⟨{ x := max 0 (min 100 (getCoords rect clientX clientY).x)
            y := max 0 (min 100 (getCoords rect clientX clientY).y) },
    ?_, le_max_left 0 _, max_le (by norm_num) (min_le_left _ _),
    le_max_left 0 _, max_le (by norm_num) (min_le_left _ _), ?_⟩
  · show (shape.points.set idx _).getD idx { x := 0, y := 0 } = _
    have hlen : idx < (shape.points.set idx
        { x := max 0 (min 100 (getCoords rect clientX clientY).x)
          y := max 0 (min 100 (getCoords rect clientX clientY).y) }).length := by
      simpa using h
    rw [List.getD_eq_getElem _ _ hlen, List.getElem_set_self]
  · rintro ⟨hx0, hx100, hy0, hy100⟩
    rw [min_eq_right hx100, max_eq_right hx0, min_eq_right hy100,
      max_eq_right hy0]

/-- Witness for C7: dragging the only vertex of a shape to the off-surface
normalized position (150, -50) stores a clamped in-range point. -/
theorem handleWindowMouseMove_clamp_witness :
    ∃ q : Point,
      (handleWindowMouseMove { left := 0, top := 0, width := 100, height := 100 }
          150 (-50) 0
          { id := "w7", name := "W7",
            points := [{ x := 5, y := 5 }], channel := 1, noteStart := 60,
            noteEnd := 60, color := "#00ffcc", velocitySensitive := false,
            baseOpacity := 1 }).points.getD 0 { x := 0, y := 0 } = q ∧
      0 ≤ q.x ∧ q.x ≤ 100 ∧ 0 ≤ q.y ∧ q.y ≤ 100 ∧
      ((0 ≤ (getCoords { left := 0, top := 0, width := 100, height := 100 }
              150 (-50)).x ∧
          (getCoords { left := 0, top := 0, width := 100, height := 100 }
              150 (-50)).x ≤ 100 ∧
          0 ≤ (getCoords { left := 0, top := 0, width := 100, height := 100 }
              150 (-50)).y ∧
          (getCoords { left := 0, top := 0, width := 100, height := 100 }
              150 (-50)).y ≤ 100) →
        q = getCoords { left := 0, top := 0, width := 100, height := 100 }
          150 (-50)) :=
  handleWindowMouseMove_clamp
    { left := 0, top := 0, width := 100, height := 100 } 150 (-50) 0
    { id := "w7", name := "W7", points := [{ x := 5, y := 5 }], channel := 1,
      noteStart := 60, noteEnd := 60, color := "#00ffcc",
      velocitySensitive := false, baseOpacity := 1 } (by decide)

end LumaMap
